import Mathlib

/-!
Shallow embedding of `src/eth-lib-adapters/EthersAdapter.ts` from the
contract-proxy-kit repository, together with proofs about the embedded
operations.

The adapter manipulates untyped JavaScript values (error objects, option
bags), so we first give a small model of the JavaScript values and of the
property-access primitives the source uses (`typeof`, property lookup,
`Object.getOwnPropertyNames`, object spread).  External capabilities the
adapter consumes (the keccak256 hash, the checksum normalizer
`ethers.utils.getAddress`, the ABI codec, the provider) are parameters of
the embedded functions, as they are external library calls in the source.
-/

set_option autoImplicit false

namespace CPK

/-- Model of a JavaScript runtime value, as far as the adapter inspects
them: `undefined`, `null`, booleans, numbers, strings, plain objects
(ordered key/value fields) and arrays. -/
inductive JsVal where
  | undefined : JsVal
  | null : JsVal
  | bool : Bool → JsVal
  | num : Int → JsVal
  | str : String → JsVal
  | obj : List (String × JsVal) → JsVal
  | arr : List JsVal → JsVal

/-- Errors the embedded operations can raise: a JavaScript `TypeError`
(property access on `undefined`/`null`), an invalid-address error from the
checksum normalizer, and the adapter's own from-address mismatch error
(`want from ... but got from ...`). -/
inductive JsErr where
  | typeError : JsErr
  | invalidAddress : JsErr
  | addressMismatch (want got : String) : JsErr
deriving DecidableEq

/-- Option bag / JavaScript object payload: ordered association list of
string keys to values. -/
abbrev Bag := List (String × JsVal)

/-- First value bound to key `k`, if any (JavaScript objects have unique
keys; for lists with duplicates the first occurrence wins, matching
`List.find?`). -/
def bagLookup (fs : Bag) (k : String) : Option JsVal :=
  (fs.find? (fun p => p.1 == k)).map Prod.snd

/-- Whether the bag binds key `k`. -/
def bagHas (fs : Bag) (k : String) : Bool :=
  (fs.find? (fun p => p.1 == k)).isSome

/-- Remove every binding of key `k` (models `const { k, ...rest } = b`
for the `rest` part). -/
def bagRemove (fs : Bag) (k : String) : Bag :=
  fs.filter (fun p => !(p.1 == k))

/-- JavaScript object spread `\x7b ...base, ...ext \x7d`: keys of `base`
keep their position but `ext` values win; keys only in `ext` are appended
in order. -/
def jsSpread (base ext : Bag) : Bag :=
  base.map (fun p => (p.1, (bagLookup ext p.1).getD p.2)) ++
    ext.filter (fun p => !(bagHas base p.1))

/-- Boolean string prefix test over the character lists (models
JavaScript `String.prototype.startsWith`). -/
def strStartsWith (s p : String) : Bool :=
  p.data.isPrefixOf s.data

/-- Drop the first `n` characters (models `s.slice(n)` for `0 ≤ n`). -/
def strDrop (n : Nat) (s : String) : String :=
  String.mk (s.data.drop n)

/-- Keep the last `n` characters (models `s.slice(-n)`): for strings of
length at least `n` this is the suffix of length `n`, otherwise the whole
string, exactly as in JavaScript. -/
def sliceLast (n : Nat) (s : String) : String :=
  String.mk (s.data.drop (s.data.length - n))

/-- Strip a leading hex prefix if present. -/
def strip0x (s : String) : String :=
  if strStartsWith s "0x" then strDrop 2 s else s

/-- Lower-case every character; the case-folded form a checksum
normalizer works from. -/
def lowerStr (s : String) : String :=
  String.mk (s.data.map Char.toLower)

/-- Model of `Object.getOwnPropertyNames`: throws a `TypeError` on
`undefined`/`null`; index names plus `length` for strings and arrays;
field names for objects; nothing for other primitives. -/
def getOwnPropertyNames : JsVal → Except JsErr (List String)
  | .undefined => .error .typeError
  | .null => .error .typeError
  | .bool _ => .ok []
  | .num _ => .ok []
  | .str s => .ok ((List.range s.data.length).map toString ++ ["length"])
  | .obj fs => .ok (fs.map Prod.fst)
  | .arr a => .ok ((List.range a.length).map toString ++ ["length"])

/-- Parse a nonempty all-digit character list as a decimal number
(a JavaScript array/string index name), `none` otherwise. -/
def decDigits? (l : List Char) : Option Nat :=
  match l with
  | [] => none
  | _ =>
    l.foldl
      (fun acc c =>
        match acc with
        | none => none
        | some n => if c.isDigit then some (n * 10 + (c.toNat - 48)) else none)
      (some 0)

/-- Model of JavaScript property access `v[k]`: throws a `TypeError` on
`undefined`/`null`, returns `undefined` for absent properties. -/
def jsGetProp : JsVal → String → Except JsErr JsVal
  | .undefined, _ => .error .typeError
  | .null, _ => .error .typeError
  | .bool _, _ => .ok .undefined
  | .num _, _ => .ok .undefined
  | .str s, k =>
    if k = "length" then .ok (.num (s.data.length : Int))
    else
      match decDigits? k.data with
      | some i => .ok (((s.data.get? i).map (fun c => JsVal.str (String.mk [c]))).getD .undefined)
      | none => .ok .undefined
  | .obj fs, k => .ok ((bagLookup fs k).getD .undefined)
  | .arr a, k =>
    if k = "length" then .ok (.num (a.length : Int))
    else
      match decDigits? k.data with
      | some i => .ok ((a.get? i).getD .undefined)
      | none => .ok .undefined

/-! ## Revert-data extractor (`EthersAdapter.getCallRevertData`) -/

/-- Last branch of `getCallRevertData`: the Ganache error format.  The
source computes `Object.getOwnPropertyNames(e.data)`, filters for names
beginning with the hex prefix, takes the first (which is `undefined` when
the filter is empty, so the subsequent index coerces it to the string
`"undefined"`), and returns `e.data[txHash].return`. -/
def ganacheFallback (d : JsVal) : Except JsErr JsVal :=
  match getOwnPropertyNames d with
  | .error err => .error err
  | .ok names =>
    match jsGetProp d (((names.filter (fun k => strStartsWith k "0x")).head?).getD "undefined") with
    | .error err => .error err
    | .ok entry => jsGetProp entry "return"

/-- Catch branch of `getCallRevertData`, applied to the thrown error's
`data` field: if it is a string beginning with `Reverted 0x`
(OpenEthereum format), strip the 9-character `Reverted ` sentinel;
otherwise fall through to the Ganache object format. -/
def revertDataOfError : JsVal → Except JsErr JsVal
  | .str s =>
    if strStartsWith s "Reverted 0x" then .ok (.str (strDrop 9 s))
    else ganacheFallback (.str s)
  | d => ganacheFallback d

/-- `EthersAdapter.getCallRevertData`: the underlying `ethCall` either
resolves with hex return data (Geth/Ganache `--noVMErrorsOnRPCResponse`)
or rejects with a thrown value `e`; in the latter case the extractor
inspects `e.data`. -/
def getCallRevertData (callResult : Except JsVal String) : Except JsErr JsVal :=
  match callResult with
  | .ok res => .ok (.str res)
  | .error e =>
    match jsGetProp e "data" with
    | .error err => .error err
    | .ok d => revertDataOfError d

/-- Whether the thrown error's `data` field takes the sentinel-prefixed
string shape recognized by the first fallback branch. -/
def isSentinelData : JsVal → Bool
  | .str s => strStartsWith s "Reverted 0x"
  | _ => false

/-- Characterization of the Ganache fallback path: the entry the source
would select (the value at the first hex-prefixed property name, or at
`"undefined"` when there is none), provided that entry is subscriptable
(not `undefined`/`null`, and reachable without a `TypeError`). -/
def ganacheEntry (d : JsVal) : Option JsVal :=
  match getOwnPropertyNames d with
  | .error _ => none
  | .ok names =>
    match jsGetProp d (((names.filter (fun k => strStartsWith k "0x")).head?).getD "undefined") with
    | .error _ => none
    | .ok .undefined => none
    | .ok .null => none
    | .ok entry => some entry

/-! ## CREATE2 address computation (`EthersAdapter.calcCreate2Address`) -/

/-- External capabilities from `ethers.utils` the adapter consumes:
`keccak256` mapping a hex string to a hex digest, and `getAddress`, the
checksum normalizer (`none` models the throw on an invalid address). -/
structure EthersUtils where
  keccak256 : String → String
  getAddress : String → Option String

/-- Tight packing of hex-string values: concatenation of their hex digits
(each value's leading hex prefix stripped). -/
def hexConcat : List String → String
  | [] => ""
  | v :: vs => strip0x v ++ hexConcat vs

/-- Model of `ethers.utils.solidityPack` as used here: all argument types
(`bytes`, `address`, `bytes32`) pack a hex-string value as its raw bytes,
so the packed form is the hex-prefixed concatenation of the stripped hex
digits. -/
def solidityPackBytes (values : List String) : String :=
  "0x" ++ hexConcat values

/-- Model of `ethers.utils.solidityKeccak256`: keccak256 of the tightly
packed values. -/
def solidityKeccak256 (u : EthersUtils) (values : List String) : String :=
  u.keccak256 (solidityPackBytes values)

/-- `EthersAdapter.calcCreate2Address`: checksum-normalize the last 40
characters (`slice(-40)`) of
`solidityKeccak256(['bytes','address','bytes32','bytes32'],
['0xff', deployer, salt, keccak256(initCode)])`. -/
def calcCreate2Address (u : EthersUtils) (deployer salt initCode : String) : Option String :=
  u.getAddress
    (sliceLast 40 (solidityKeccak256 u ["0xff", deployer, salt, u.keccak256 initCode]))

/-- The CREATE2 scheme as the spec words it: the checksum-normalized last
20 bytes (40 hex digits) of
`keccak256(0xff ++ deployer ++ salt ++ keccak256(initCode))`, the four
components concatenated byte-wise. -/
def create2AddressSpec (u : EthersUtils) (deployer salt initCode : String) : Option String :=
  let digest :=
    u.keccak256 ("0xff" ++ strip0x deployer ++ strip0x salt ++ strip0x (u.keccak256 initCode))
  let hexDigits := (strip0x digest).data
  u.getAddress (String.mk (hexDigits.drop (hexDigits.length - 40)))

/-! ## Address verification and transaction dispatch -/

/-- `EthersAdapter.checkFromAddress`: checksum-normalize `from` with
`ethers.utils.getAddress` and compare against the adapter's controlled
account (`signer.getAddress()`); throw the mismatch error otherwise.  A
non-string or invalid `from` makes the normalizer itself throw. -/
def checkFromAddress (getAddress : String → Option String) (account : String) :
    JsVal → Except JsErr Unit
  | .str s =>
    match getAddress s with
    | some a => if a = account then .ok () else .error (.addressMismatch account s)
    | none => .error .invalidAddress
  | _ => .error .invalidAddress

/-- Modelled from the spec: `normalizeGasLimit` lives in
`src/utils/transactions`, which is not among the sources.  Spec 4.1: the
input bag may spell the gas limit under one of several accepted key names
(canonical `gas`, or `gasLimit`); the output carries exactly one
canonical `gas` key with that value and passes every other key through
unchanged; when no gas-limit-like key is present the output omits `gas`
entirely; pure, no failure modes. -/
def normalizeGasLimit (b : Bag) : Bag :=
  match (bagLookup b "gas").orElse (fun _ => bagLookup b "gasLimit") with
  | some v => ("gas", v) :: bagRemove (bagRemove b "gas") "gasLimit"
  | none => b

/-- Observable dispatches to the underlying library: a state-changing
method submission through `contract.functions`, a raw transaction
submission through `signer.sendTransaction`, and a gas estimation through
`contract.estimate` (which submits nothing). -/
inductive DispatchEvent where
  | submit (methodName : String) (params : List JsVal) (options : Option Bag)
  | submitRaw (tx : Bag)
  | estimate (methodName : String) (params : List JsVal) (options : Option Bag)

/-- The option/transaction bag a dispatch hands to the underlying
library, when one is supplied. -/
def eventBag : DispatchEvent → Option Bag
  | .submit _ _ o => o
  | .submitRaw t => some t
  | .estimate _ _ o => o

/-- Whether a dispatch is a gas estimation (as opposed to a
transaction submission). -/
def eventIsEstimate : DispatchEvent → Bool
  | .estimate _ _ _ => true
  | _ => false

/-- `EthersAdapter.ethSendTransaction`: normalize the gas spelling,
destructure `from` and `gas` out of the normalized bag, verify `from`
via `checkFromAddress`, then submit `\x7b gasLimit: gas, ...sendTx \x7d`.
The result pairs the submissions actually made with the outcome. -/
def ethSendTransaction (getAddress : String → Option String) (account : String)
    (tx : Bag) : List DispatchEvent × Except JsErr Unit :=
  let n := normalizeGasLimit tx
  let fromV := (bagLookup n "from").getD .undefined
  let gasV := (bagLookup n "gas").getD .undefined
  let sendTx := bagRemove (bagRemove n "from") "gas"
  match checkFromAddress getAddress account fromV with
  | .error err => ([], .error err)
  | .ok _ => ([.submitRaw (("gasLimit", gasV) :: sendTx)], .ok ())

/-- `EthersAdapter.getSendOptions`: spread the caller options over a base
object containing only `from: ownerAccount`. -/
def getSendOptions (ownerAccount : String) (options : Option Bag) : Bag :=
  jsSpread [("from", .str ownerAccount)] (options.getD [])

/-! ## Contract handle (`EthersContractAdapter`) -/

/-- External ABI codec of the bound contract
(`contract.interface.functions[methodName]`): per-method call-data
encoding and return-data decoding. -/
structure ContractInterface where
  encode : String → List JsVal → String
  decode : String → String → List JsVal

/-- The read-only call request `ethCall(tx, block)` receives: the
transaction bag and the block tag. -/
structure EthCallRequest where
  tx : Bag
  block : String

/-- `EthersContractAdapter.call`: encode the method call, issue
`ethCall(\x7b ...options, to, data \x7d, 'latest')`, decode the response
hex against the method's output types, and unwrap a single decoded value
(`rets.length === 1`) rather than returning a one-element sequence.
Returns the request made together with the resolved value. -/
def contractCall (iface : ContractInterface) (respond : EthCallRequest → String)
    (address methodName : String) (params : List JsVal) (options : Option Bag) :
    EthCallRequest × JsVal :=
  let dataHex := iface.encode methodName params
  let req : EthCallRequest :=
    { tx := jsSpread (options.getD []) [("to", .str address), ("data", .str dataHex)]
      block := "latest" }
  let rets := iface.decode methodName (respond req)
  (req, if rets.length = 1 then rets.headD .undefined else .arr rets)

/-- `EthersContractAdapter.send`: with options, normalize the gas
spelling, destructure `from` and `gas`, verify `from`, and dispatch the
method with `\x7b gasLimit: gas, ...sendOptions \x7d`; without options,
dispatch bare. -/
def contractSend (getAddress : String → Option String) (account : String)
    (methodName : String) (params : List JsVal) (options : Option Bag) :
    List DispatchEvent × Except JsErr Unit :=
  match options with
  | none => ([.submit methodName params none], .ok ())
  | some opts =>
    let n := normalizeGasLimit opts
    let fromV := (bagLookup n "from").getD .undefined
    let gasV := (bagLookup n "gas").getD .undefined
    let sendOptions := bagRemove (bagRemove n "from") "gas"
    match checkFromAddress getAddress account fromV with
    | .error err => ([], .error err)
    | .ok _ => ([.submit methodName params (some (("gasLimit", gasV) :: sendOptions))], .ok ())

/-- `EthersContractAdapter.estimateGas`: without options, dispatch the
bare estimation; with options, normalize the gas spelling, destructure
only `gas` out, and dispatch the estimation with
`\x7b gasLimit: gas, ...callOptions \x7d`.  No `from` verification and
nothing is submitted; the external `estimate` yields the integral result
of `.toNumber()`. -/
def contractEstimateGas (estimate : String → List JsVal → Option Bag → Int)
    (methodName : String) (params : List JsVal) (options : Option Bag) :
    List DispatchEvent × Except JsErr Int :=
  match options with
  | none => ([.estimate methodName params none], .ok (estimate methodName params none))
  | some opts =>
    let n := normalizeGasLimit opts
    let gasV := (bagLookup n "gas").getD .undefined
    let callOptions := bagRemove n "gas"
    let dispatched := some (("gasLimit", gasV) :: callOptions)
    ([.estimate methodName params dispatched], .ok (estimate methodName params dispatched))

/-- Frame property of a dispatched bag `d` relative to the normalized
input bag `n`: the normalized `gas` value appears under the key
`gasLimit`, the `gas` key itself is gone, `from` is removed when
`fromRemoved` is set, and every other key keeps its value. -/
def renamesGasKeepsRest (d n : Bag) (fromRemoved : Bool) : Prop :=
  bagLookup d "gasLimit" = some ((bagLookup n "gas").getD .undefined) ∧
  bagLookup d "gas" = none ∧
  (fromRemoved = true → bagLookup d "from" = none) ∧
  ∀ k, k ≠ "gas" → k ≠ "gasLimit" → (fromRemoved = true → k ≠ "from") →
    bagLookup d k = bagLookup n k

end CPK

namespace CPK

theorem string_data_append (a b : String) : (a ++ b).data = a.data ++ b.data := rfl

theorem string_data_ext (a b : String) (h : a.data = b.data) : a = b := by
  cases a; cases b; cases h; rfl

theorem bagLookup_cons (k' k : String) (v : JsVal) (fs : Bag) :
    bagLookup ((k', v) :: fs) k = if k' = k then some v else bagLookup fs k := by
  by_cases h : k' = k
  · subst h
    simp [bagLookup, List.find?_cons_of_pos]
  · simp [bagLookup, List.find?_cons_of_neg, h]

theorem bagLookup_remove_self (fs : Bag) (k : String) :
    bagLookup (bagRemove fs k) k = none := by
  induction fs with
  | nil => rfl
  | cons p fs ih =>
    obtain ⟨k', v⟩ := p
    by_cases h : k' = k
    · subst h
      simpa [bagRemove, List.filter_cons] using ih
    · simp only [bagRemove, List.filter_cons] at ih ⊢
      simp [h, bagLookup_cons, ih]

theorem bagLookup_remove_ne (fs : Bag) (k k' : String) (h : k ≠ k') :
    bagLookup (bagRemove fs k') k = bagLookup fs k := by
  induction fs with
  | nil => rfl
  | cons p fs ih =>
    obtain ⟨k₁, v₁⟩ := p
    by_cases h₁ : k₁ = k'
    · subst h₁
      have hne : k₁ ≠ k := fun hh => h hh.symm
      simp only [bagRemove, List.filter_cons] at ih ⊢
      simp [bagLookup_cons, ih, hne]
    · simp only [bagRemove, List.filter_cons] at ih ⊢
      simp [h₁, bagLookup_cons, ih]

end CPK

namespace CPK

theorem bagHas_singleton (k₀ k : String) (v₀ : JsVal) :
    bagHas [(k₀, v₀)] k = (k₀ == k) := by
  cases h : (k₀ == k) with
  | true => simp [bagHas, List.find?_cons_of_pos, h]
  | false => simp [bagHas, List.find?_cons_of_neg, h, List.find?_nil]

theorem bagLookup_filter_ne (ext : Bag) (k₀ k : String) (h : k ≠ k₀) :
    bagLookup (ext.filter (fun p => !(k₀ == p.1))) k = bagLookup ext k := by
  induction ext with
  | nil => rfl
  | cons p ext ih =>
    obtain ⟨k₁, v₁⟩ := p
    by_cases h₁ : k₀ = k₁
    · subst h₁
      have hne : k₀ ≠ k := fun hh => h hh.symm
      simp only [List.filter_cons]
      simp [bagLookup_cons, ih, hne]
    · simp only [List.filter_cons]
      simp [h₁, bagLookup_cons, ih]

/-- C6: `getSendOptions(ownerAccount, options)` spreads the caller
options over a base containing only `from: ownerAccount`: with options
omitted the result is exactly that base, and with options supplied every
caller key wins, including a caller-supplied `from`; only an absent
caller `from` falls back to `ownerAccount`. -/
theorem getSendOptions_correct (owner : String) (ext : Bag) (k : String) :
    getSendOptions owner none = [("from", .str owner)] ∧
    bagLookup (getSendOptions owner (some ext)) k =
      (if k = "from" then some ((bagLookup ext "from").getD (.str owner))
       else bagLookup ext k) := by
  refine ⟨rfl, ?_⟩
  show bagLookup (jsSpread [("from", .str owner)] ext) k = _
  have hspread : jsSpread [("from", .str owner)] ext =
      ("from", (bagLookup ext "from").getD (.str owner)) ::
        ext.filter (fun p => !("from" == p.1)) := by
    simp only [jsSpread, List.map_cons, List.map_nil, bagHas_singleton,
      List.cons_append, List.nil_append]
  rw [hspread, bagLookup_cons]
  by_cases hk : k = "from"
  · subst hk
    simp
  · rw [if_neg (fun hh => hk hh.symm), if_neg hk, bagLookup_filter_ne ext "from" k hk]

/-- C9: `EthersContractAdapter.call` always issues its read-only call
against the `latest` block tag, whatever options bag (or none) the
caller supplies; no option can select a different block. -/
theorem contractCall_always_latest (iface : ContractInterface)
    (respond : EthCallRequest → String) (address m : String) (ps : List JsVal)
    (options : Option Bag) :
    (contractCall iface respond address m ps options).1.block = "latest" := rfl

/-- C7: `EthersContractAdapter.call` decodes the returned hex against the
method's declared output types; when the decoded sequence has exactly one
value it resolves with that value directly, and with two or more values
it resolves with the full ordered sequence. -/
theorem contractCall_unwraps_single (iface : ContractInterface)
    (respond : EthCallRequest → String) (address m : String) (ps : List JsVal)
    (options : Option Bag) :
    (∀ v, iface.decode m (respond (contractCall iface respond address m ps options).1) = [v] →
      (contractCall iface respond address m ps options).2 = v) ∧
    (2 ≤ (iface.decode m (respond (contractCall iface respond address m ps options).1)).length →
      (contractCall iface respond address m ps options).2 =
        .arr (iface.decode m (respond (contractCall iface respond address m ps options).1))) := by
  have hr : (contractCall iface respond address m ps options).2 =
      (if (iface.decode m (respond (contractCall iface respond address m ps options).1)).length = 1
       then (iface.decode m (respond (contractCall iface respond address m ps options).1)).headD .undefined
       else .arr (iface.decode m (respond (contractCall iface respond address m ps options).1))) := rfl
  constructor
  · intro v hv
    rw [hr, hv]
    rfl
  · intro h2
    have hne : (iface.decode m (respond (contractCall iface respond address m ps options).1)).length ≠ 1 := by
      omega
    rw [hr, if_neg hne]

/-- C7 witness: a decoder declaring a single `uint256`-style output makes
`call` resolve with the bare value. -/
theorem contractCall_unwraps_single_witness :
    (contractCall ⟨fun _ _ => "0xd", fun _ _ => [.num 7]⟩ (fun _ => "0xr")
      "0xa" "m" [] none).2 = .num 7 :=
  (contractCall_unwraps_single ⟨fun _ _ => "0xd", fun _ _ => [.num 7]⟩
    (fun _ => "0xr") "0xa" "m" [] none).1 (.num 7) rfl

end CPK

namespace CPK

/-- C4: for a `from` the checksum normalizer accepts, `checkFromAddress`
fails with the address-mismatch error exactly when the normalized form
differs from the controlled account, and returns normally otherwise; in
particular, when the normalizer depends only on the case-folded address
and the controlled account is canonical, a `from` differing from the
account only in letter case is accepted. -/
theorem checkFromAddress_correct (getAddress : String → Option String)
    (account fromA a : String) :
    (getAddress fromA = some a →
      ((checkFromAddress getAddress account (.str fromA) =
          .error (.addressMismatch account fromA)) ↔ a ≠ account) ∧
      (a = account → checkFromAddress getAddress account (.str fromA) = .ok ())) ∧
    ((∀ s t : String, lowerStr s = lowerStr t → getAddress s = getAddress t) →
      getAddress account = some account →
      lowerStr fromA = lowerStr account →
      checkFromAddress getAddress account (.str fromA) = .ok ()) := by
  constructor
  · intro hga
    constructor
    · constructor
      · intro h hcontra
        subst hcontra
        simp [checkFromAddress, hga] at h
      · intro hne
        simp [checkFromAddress, hga, hne]
    · intro heq
      subst heq
      simp [checkFromAddress, hga]
  · intro hfold hcanon hcase
    have hsame : getAddress fromA = some account := (hfold fromA account hcase).trans hcanon
    simp [checkFromAddress, hsame]

/-- C4 witness: with a case-folding normalizer and the canonical account
`0xab`, the case variant `0xAB` is accepted. -/
theorem checkFromAddress_correct_witness :
    checkFromAddress (fun s => some (lowerStr s)) "0xab" (.str "0xAB") = .ok () :=
  (checkFromAddress_correct (fun s => some (lowerStr s)) "0xab" "0xAB" "0xab").2
    (fun s t h => congrArg some h) (by decide) (by decide)

/-- C5: whenever `ethSendTransaction`, or contract-handle `send` with
options supplied, is given a `from` that checksum-normalizes to something
other than the controlled account, the operation fails with the
address-mismatch error and makes no submission; conversely any submission
implies the normalized `from` equalled the controlled account. -/
theorem no_submit_without_verified_from
    (getAddress : String → Option String) (account : String) (tx b : Bag)
    (m : String) (ps : List JsVal) (s a : String) :
    (bagLookup (normalizeGasLimit tx) "from" = some (.str s) →
      getAddress s = some a → a ≠ account →
      ethSendTransaction getAddress account tx =
        ([], .error (.addressMismatch account s))) ∧
    (bagLookup (normalizeGasLimit b) "from" = some (.str s) →
      getAddress s = some a → a ≠ account →
      contractSend getAddress account m ps (some b) =
        ([], .error (.addressMismatch account s))) ∧
    ((ethSendTransaction getAddress account tx).1 ≠ [] →
      ∃ s', (bagLookup (normalizeGasLimit tx) "from").getD .undefined = .str s' ∧
        getAddress s' = some account) ∧
    ((contractSend getAddress account m ps (some b)).1 ≠ [] →
      ∃ s', (bagLookup (normalizeGasLimit b) "from").getD .undefined = .str s' ∧
        getAddress s' = some account) := by
  refine ⟨?_, ?_, ?_, ?_⟩
  · intro hfrom hga hne
    simp only [ethSendTransaction, hfrom, Option.getD_some]
    simp [checkFromAddress, hga, hne]
  · intro hfrom hga hne
    simp only [contractSend, hfrom, Option.getD_some]
    simp [checkFromAddress, hga, hne]
  · intro hne
    simp only [ethSendTransaction] at hne ⊢
    cases hfv : (bagLookup (normalizeGasLimit tx) "from").getD .undefined with
    | str s' =>
      rw [hfv] at hne
      cases hga : getAddress s' with
      | none => simp [checkFromAddress, hga] at hne
      | some a' =>
        by_cases ha : a' = account
        · exact ⟨s', rfl, ha ▸ hga⟩
        · simp [checkFromAddress, hga, ha] at hne
    | undefined => rw [hfv] at hne; simp [checkFromAddress] at hne
    | null => rw [hfv] at hne; simp [checkFromAddress] at hne
    | bool bv => rw [hfv] at hne; simp [checkFromAddress] at hne
    | num nv => rw [hfv] at hne; simp [checkFromAddress] at hne
    | obj fsv => rw [hfv] at hne; simp [checkFromAddress] at hne
    | arr av => rw [hfv] at hne; simp [checkFromAddress] at hne
  · intro hne
    simp only [contractSend] at hne ⊢
    cases hfv : (bagLookup (normalizeGasLimit b) "from").getD .undefined with
    | str s' =>
      rw [hfv] at hne
      cases hga : getAddress s' with
      | none => simp [checkFromAddress, hga] at hne
      | some a' =>
        by_cases ha : a' = account
        · exact ⟨s', rfl, ha ▸ hga⟩
        · simp [checkFromAddress, hga, ha] at hne
    | undefined => rw [hfv] at hne; simp [checkFromAddress] at hne
    | null => rw [hfv] at hne; simp [checkFromAddress] at hne
    | bool bv => rw [hfv] at hne; simp [checkFromAddress] at hne
    | num nv => rw [hfv] at hne; simp [checkFromAddress] at hne
    | obj fsv => rw [hfv] at hne; simp [checkFromAddress] at hne
    | arr av => rw [hfv] at hne; simp [checkFromAddress] at hne

/-- C5 witness: a `from` normalizing to an address other than the
controlled account makes `ethSendTransaction` fail with the mismatch
error and submit nothing. -/
theorem no_submit_without_verified_from_witness :
    ethSendTransaction (fun x => some x) "0xaa" [("from", .str "0xbb")] =
      ([], .error (.addressMismatch "0xaa" "0xbb")) :=
  (no_submit_without_verified_from (fun x => some x) "0xaa"
      [("from", .str "0xbb")] [("from", .str "0xbb")] "m" [] "0xbb" "0xbb").1
    rfl rfl (by decide)

end CPK

namespace CPK

theorem renames_core_send (n : Bag) :
    renamesGasKeepsRest
      (("gasLimit", (bagLookup n "gas").getD .undefined) ::
        bagRemove (bagRemove n "from") "gas") n true := by
  refine ⟨?_, ?_, ?_, ?_⟩
  · rw [bagLookup_cons]
    simp
  · rw [bagLookup_cons]
    rw [if_neg (by decide)]
    exact bagLookup_remove_self _ "gas"
  · intro _
    rw [bagLookup_cons]
    rw [if_neg (by decide)]
    rw [bagLookup_remove_ne _ "from" "gas" (by decide)]
    exact bagLookup_remove_self _ "from"
  · intro k hg hgl hf
    rw [bagLookup_cons]
    rw [if_neg (fun hh => hgl hh.symm)]
    rw [bagLookup_remove_ne _ k "gas" hg]
    exact bagLookup_remove_ne _ k "from" (hf rfl)

theorem renames_core_estimate (n : Bag) :
    renamesGasKeepsRest
      (("gasLimit", (bagLookup n "gas").getD .undefined) :: bagRemove n "gas") n false := by
  refine ⟨?_, ?_, ?_, ?_⟩
  · rw [bagLookup_cons]
    simp
  · rw [bagLookup_cons]
    rw [if_neg (by decide)]
    exact bagLookup_remove_self _ "gas"
  · intro h
    exact absurd h (by decide)
  · intro k hg hgl _
    rw [bagLookup_cons]
    rw [if_neg (fun hh => hgl hh.symm)]
    exact bagLookup_remove_ne _ k "gas" hg

/-- C10: every bag dispatched to the underlying library by
`ethSendTransaction`, contract-handle `send` with options, or
`estimateGas` with options, carries the normalized `gas` value under the
key `gasLimit` (the `gas` key itself gone), has `from` removed for the
two submission paths, and passes every other key of the normalized bag
through unchanged. -/
theorem dispatch_frame_correct
    (getAddress : String → Option String) (account : String) (tx b : Bag)
    (m : String) (ps : List JsVal) (est : String → List JsVal → Option Bag → Int) :
    (∀ e ∈ (ethSendTransaction getAddress account tx).1, ∀ d, eventBag e = some d →
      renamesGasKeepsRest d (normalizeGasLimit tx) true) ∧
    (∀ e ∈ (contractSend getAddress account m ps (some b)).1, ∀ d, eventBag e = some d →
      renamesGasKeepsRest d (normalizeGasLimit b) true) ∧
    (∀ e ∈ (contractEstimateGas est m ps (some b)).1, ∀ d, eventBag e = some d →
      renamesGasKeepsRest d (normalizeGasLimit b) false) := by
  refine ⟨?_, ?_, ?_⟩
  · intro e he d hd
    revert he
    simp only [ethSendTransaction]
    cases hch : checkFromAddress getAddress account
        ((bagLookup (normalizeGasLimit tx) "from").getD .undefined) with
    | error err => intro he; exact absurd he (List.not_mem_nil e)
    | ok u =>
      intro he
      rw [List.mem_singleton] at he
      subst he
      simp only [eventBag, Option.some.injEq] at hd
      subst hd
      exact renames_core_send _
  · intro e he d hd
    revert he
    simp only [contractSend]
    cases hch : checkFromAddress getAddress account
        ((bagLookup (normalizeGasLimit b) "from").getD .undefined) with
    | error err => intro he; exact absurd he (List.not_mem_nil e)
    | ok u =>
      intro he
      rw [List.mem_singleton] at he
      subst he
      simp only [eventBag, Option.some.injEq] at hd
      subst hd
      exact renames_core_send _
  · intro e he d hd
    simp only [contractEstimateGas, List.mem_singleton] at he
    subst he
    simp only [eventBag, Option.some.injEq] at hd
    subst hd
    exact renames_core_estimate _

/-- C10 witness: a caller bag spelling the gas limit as `gasLimit` is
dispatched by `estimateGas` with the normalized value back under
`gasLimit`. -/
theorem dispatch_frame_correct_witness :
    bagLookup [("gasLimit", .num 5), ("foo", .str "b")] "gasLimit" =
      some ((bagLookup (normalizeGasLimit [("gasLimit", .num 5), ("foo", .str "b")])
        "gas").getD .undefined) :=
  ((dispatch_frame_correct (fun _ => none) "0xa" [] [("gasLimit", .num 5), ("foo", .str "b")]
      "m" [] (fun _ _ _ => 0)).2.2
    (.estimate "m" [] (some [("gasLimit", .num 5), ("foo", .str "b")]))
    (List.mem_singleton.mpr rfl)
    [("gasLimit", .num 5), ("foo", .str "b")] rfl).1

end CPK

namespace CPK

/-- C8 counterexample: on the same options bag whose `from` does not
normalize to the controlled account, contract-handle `send` fails with
the mismatch error but `estimateGas` succeeds: `estimateGas` performs no
`from` verification, so it does not handle options the same way `send`
does. -/
theorem estimateGas_skips_from_check :
    (contractEstimateGas (fun _ _ _ => 21000) "transfer" []
        (some [("from", .str "0xbad")])).2 = .ok 21000 ∧
    (contractSend (fun x => some x) "0xgood" "transfer" []
        (some [("from", .str "0xbad")])).2 =
      .error (.addressMismatch "0xgood" "0xbad") :=
  ⟨rfl, rfl⟩

/-- C8 (amended): `estimateGas` returns the integral estimate produced
by the underlying library and never submits a transaction; with options
supplied it normalizes the gas spelling and renames it to `gasLimit` as
`send` does, but performs no `from` verification (it cannot fail with the
mismatch error) and passes `from` through to the estimation dispatch;
with options omitted it dispatches bare. -/
theorem estimateGas_amended (est : String → List JsVal → Option Bag → Int)
    (m : String) (ps : List JsVal) (b : Bag) :
    (∃ g, (contractEstimateGas est m ps (some b)).2 = .ok g) ∧
    (∀ e ∈ (contractEstimateGas est m ps (some b)).1, eventIsEstimate e = true) ∧
    (∀ e ∈ (contractEstimateGas est m ps none).1, eventIsEstimate e = true) ∧
    (∀ e ∈ (contractEstimateGas est m ps (some b)).1, ∀ d, eventBag e = some d →
      bagLookup d "gasLimit" =
        some ((bagLookup (normalizeGasLimit b) "gas").getD .undefined) ∧
      bagLookup d "from" = bagLookup (normalizeGasLimit b) "from") ∧
    (contractEstimateGas est m ps none).2 = .ok (est m ps none) := by
  refine ⟨⟨_, rfl⟩, ?_, ?_, ?_, rfl⟩
  · intro e he
    simp only [contractEstimateGas, List.mem_singleton] at he
    subst he
    rfl
  · intro e he
    simp only [contractEstimateGas, List.mem_singleton] at he
    subst he
    rfl
  · intro e he d hd
    simp only [contractEstimateGas, List.mem_singleton] at he
    subst he
    simp only [eventBag, Option.some.injEq] at hd
    subst hd
    constructor
    · rw [bagLookup_cons]
      simp
    · rw [bagLookup_cons]
      rw [if_neg (by decide)]
      exact bagLookup_remove_ne _ "from" "gas" (by decide)

/-- C8 witness: `estimateGas` on an options bag with an unverified `from`
still resolves with the underlying integral estimate. -/
theorem estimateGas_amended_witness :
    ∃ g, (contractEstimateGas (fun _ _ _ => 21000) "m" []
      (some [("from", .str "0xbad")])).2 = .ok g :=
  (estimateGas_amended (fun _ _ _ => 21000) "m" [] [("from", .str "0xbad")]).1

end CPK

namespace CPK

theorem isPrefixOf_append_cancel (a p l : List Char) :
    (a ++ p).isPrefixOf (a ++ l) = p.isPrefixOf l := by
  induction a with
  | nil => rfl
  | cons c a ih => simp [List.isPrefixOf, ih]

theorem strStartsWith_sentinel (h : String) (hh : strStartsWith h "0x" = true) :
    strStartsWith ("Reverted " ++ h) "Reverted 0x" = true := by
  unfold strStartsWith at hh ⊢
  rw [string_data_append]
  have h1 : "Reverted 0x".data = "Reverted ".data ++ "0x".data := rfl
  rw [h1, isPrefixOf_append_cancel]
  exact hh

theorem strDrop9_reverted (h : String) : strDrop 9 ("Reverted " ++ h) = h := by
  unfold strDrop
  rw [string_data_append]
  have h1 : ∀ l : List Char, ("Reverted ".data ++ l).drop 9 = l := fun l => rfl
  rw [h1]

/-- C3: the revert extractor applies the ordered fallback chain and
returns the same revert hex for one underlying payload presented in each
of the three supported shapes: a successful call, an error whose `data`
is the sentinel-prefixed string, and an error whose `data` maps a
hash-prefixed key to an entry with a `return` field. -/
theorem getCallRevertData_fallback_chain (h txh : String)
    (hh : strStartsWith h "0x" = true) (htx : strStartsWith txh "0x" = true) :
    getCallRevertData (.ok h) = .ok (.str h) ∧
    getCallRevertData (.error (.obj [("data", .str ("Reverted " ++ h))])) = .ok (.str h) ∧
    getCallRevertData (.error (.obj [("data",
      .obj [(txh, .obj [("return", .str h)])])])) = .ok (.str h) := by
  refine ⟨rfl, ?_, ?_⟩
  · have hdata : jsGetProp (.obj [("data", .str ("Reverted " ++ h))]) "data" =
        .ok (.str ("Reverted " ++ h)) := rfl
    simp only [getCallRevertData, hdata, revertDataOfError,
      strStartsWith_sentinel h hh, if_true, strDrop9_reverted]
  · have hdata : jsGetProp (.obj [("data", .obj [(txh, .obj [("return", .str h)])])]) "data" =
        .ok (.obj [(txh, .obj [("return", .str h)])]) := rfl
    simp only [getCallRevertData, hdata, revertDataOfError, ganacheFallback,
      getOwnPropertyNames, List.map_cons, List.map_nil, List.filter_cons, htx,
      List.filter_nil]
    simp only [if_true, List.head?_cons, Option.getD_some]
    have hlook : jsGetProp (.obj [(txh, .obj [("return", .str h)])]) txh =
        .ok (.obj [("return", .str h)]) := by
      simp [jsGetProp, bagLookup, List.find?_cons_of_pos]
    rw [hlook]
    rfl

/-- C3 witness: the payload `0xbeef` comes back identically through all
three shapes. -/
theorem getCallRevertData_fallback_chain_witness :
    getCallRevertData (.ok "0xbeef") = .ok (.str "0xbeef") ∧
    getCallRevertData (.error (.obj [("data", .str ("Reverted " ++ "0xbeef"))])) =
      .ok (.str "0xbeef") ∧
    getCallRevertData (.error (.obj [("data",
      .obj [("0xaaa", .obj [("return", .str "0xbeef")])])])) = .ok (.str "0xbeef") :=
  getCallRevertData_fallback_chain "0xbeef" "0xaaa" (by decide) (by decide)

end CPK

namespace CPK

/-- C2 counterexample: an error whose `data` is a mapping with a
hash-prefixed key whose entry has no `return` field matches none of the
recognized shapes, yet the extractor resolves with `undefined` (absent
revert data) instead of raising. -/
theorem getCallRevertData_swallows_missing_return :
    getCallRevertData (.error (.obj [("data", .obj [("0x0", .obj [])])])) =
      .ok .undefined := rfl

/-- C2 (amended): when the error's `data` is not a sentinel-prefixed
string, the extractor raises whenever the Ganache lookup path reaches no
subscriptable entry (an error object without usable `data`, no
hash-prefixed key, or an `undefined`/`null` entry); but when the selected
entry exists it resolves with that entry's `return` property — which is
`undefined` (absent revert data), not an error, when the entry lacks a
`return` field. -/
theorem getCallRevertData_unrecognized (d : JsVal)
    (hsent : isSentinelData d = false) :
    (ganacheEntry d = none →
      ∃ err, getCallRevertData (.error (.obj [("data", d)])) = .error err) ∧
    (∀ v, ganacheEntry d = some v →
      getCallRevertData (.error (.obj [("data", d)])) = jsGetProp v "return") := by
  have hdata : jsGetProp (.obj [("data", d)]) "data" = .ok d := rfl
  have hred : getCallRevertData (.error (.obj [("data", d)])) = ganacheFallback d := by
    simp only [getCallRevertData, hdata]
    cases d with
    | str s =>
      have hs : strStartsWith s "Reverted 0x" = false := hsent
      simp [revertDataOfError, hs]
    | undefined => rfl
    | null => rfl
    | bool bv => rfl
    | num nv => rfl
    | obj fs => rfl
    | arr av => rfl
  rw [hred]
  cases hN : getOwnPropertyNames d with
  | error err =>
    have hf : ganacheFallback d = .error err := by
      unfold ganacheFallback
      rw [hN]
    have hg : ganacheEntry d = none := by
      unfold ganacheEntry
      rw [hN]
    exact ⟨fun _ => ⟨err, hf⟩, fun v hv => Option.noConfusion (hg.symm.trans hv)⟩
  | ok names =>
    have hf : ganacheFallback d =
        (match jsGetProp d
            (((names.filter (fun k => strStartsWith k "0x")).head?).getD "undefined") with
          | .error err => .error err
          | .ok entry => jsGetProp entry "return") := by
      unfold ganacheFallback
      rw [hN]
    have hg : ganacheEntry d =
        (match jsGetProp d
            (((names.filter (fun k => strStartsWith k "0x")).head?).getD "undefined") with
          | .error _ => none
          | .ok .undefined => none
          | .ok .null => none
          | .ok entry => some entry) := by
      unfold ganacheEntry
      rw [hN]
    rw [hf, hg]
    cases hE : jsGetProp d
        (((names.filter (fun k => strStartsWith k "0x")).head?).getD "undefined") with
    | error err => exact ⟨fun _ => ⟨err, rfl⟩, fun v hv => Option.noConfusion hv⟩
    | ok entry =>
      cases entry with
      | undefined => exact ⟨fun _ => ⟨.typeError, rfl⟩, fun v hv => Option.noConfusion hv⟩
      | null => exact ⟨fun _ => ⟨.typeError, rfl⟩, fun v hv => Option.noConfusion hv⟩
      | bool bv =>
        exact ⟨fun hc => Option.noConfusion hc, fun v hv => by cases Option.some.inj hv; rfl⟩
      | num nv =>
        exact ⟨fun hc => Option.noConfusion hc, fun v hv => by cases Option.some.inj hv; rfl⟩
      | str sv =>
        exact ⟨fun hc => Option.noConfusion hc, fun v hv => by cases Option.some.inj hv; rfl⟩
      | obj fsv =>
        exact ⟨fun hc => Option.noConfusion hc, fun v hv => by cases Option.some.inj hv; rfl⟩
      | arr av =>
        exact ⟨fun hc => Option.noConfusion hc, fun v hv => by cases Option.some.inj hv; rfl⟩

/-- C2 witness: a plain hex string in `data` (no sentinel, no usable
hash-keyed mapping) makes the extractor raise. -/
theorem getCallRevertData_unrecognized_witness :
    ∃ err, getCallRevertData (.error (.obj [("data", .str "0xabc")])) = .error err :=
  (getCallRevertData_unrecognized (.str "0xabc") rfl).1 rfl

end CPK

namespace CPK

theorem string_data_empty : ("" : String).data = [] := rfl

theorem startsWith0x_shape (s : String) (h : strStartsWith s "0x" = true) :
    ∃ t, s.data = '0' :: 'x' :: t := by
  unfold strStartsWith at h
  have h2x : "0x".data = ['0', 'x'] := rfl
  rw [h2x] at h
  cases hd : s.data with
  | nil =>
    rw [hd] at h
    exact absurd h (by decide)
  | cons c cs =>
    cases hcs : cs with
    | nil =>
      rw [hd, hcs] at h
      simp [List.isPrefixOf] at h
    | cons c' cs' =>
      rw [hd, hcs] at h
      simp only [List.isPrefixOf, Bool.and_true, Bool.and_eq_true, beq_iff_eq] at h
      obtain ⟨h0, hx⟩ := h
      subst h0
      subst hx
      exact ⟨cs', by simp [hd, hcs]⟩

theorem solidityPack_create2 (deployer salt h : String) :
    solidityPackBytes ["0xff", deployer, salt, h] =
      "0xff" ++ strip0x deployer ++ strip0x salt ++ strip0x h := by
  apply string_data_ext
  have hff : strip0x "0xff" = "ff" := rfl
  have d1 : "0x".data = ['0', 'x'] := rfl
  have d2 : "ff".data = ['f', 'f'] := rfl
  have d3 : "0xff".data = ['0', 'x', 'f', 'f'] := rfl
  simp only [solidityPackBytes, hexConcat, hff, string_data_append, string_data_empty,
    d1, d2, d3, List.cons_append, List.nil_append, List.append_assoc, List.append_nil]

theorem sliceLast40_as_spec (D : String) (hpre : strStartsWith D "0x" = true)
    (hlen : D.data.length = 66) :
    sliceLast 40 D = String.mk ((strip0x D).data.drop ((strip0x D).data.length - 40)) := by
  obtain ⟨t, ht⟩ := startsWith0x_shape D hpre
  have hstrip : strip0x D = String.mk t := by
    unfold strip0x strDrop
    rw [if_pos hpre, ht]
    rfl
  have htlen : t.length = 64 := by
    rw [ht] at hlen
    simpa using hlen
  have hdrop : ('0' :: 'x' :: t).drop (('0' :: 'x' :: t).length - 40) =
      t.drop (t.length - 40) := by
    have e1 : ('0' :: 'x' :: t).length - 40 = 26 := by
      simp [htlen]
    have e2 : t.length - 40 = 24 := by
      rw [htlen]
    rw [e1, e2]
    rfl
  calc sliceLast 40 D = String.mk (('0' :: 'x' :: t).drop (('0' :: 'x' :: t).length - 40)) := by
        unfold sliceLast
        rw [ht]
    _ = String.mk (t.drop (t.length - 40)) := congrArg String.mk hdrop
    _ = String.mk ((strip0x D).data.drop ((strip0x D).data.length - 40)) := by
        rw [hstrip]

/-- C1: `calcCreate2Address` computes, for every deployer, salt and init
code, the checksum-normalized last 20 bytes (40 hex digits) of
`keccak256(0xff ++ deployer ++ salt ++ keccak256(initCode))` — assuming
only that the external keccak yields hex-prefixed 32-byte digests — and
is deterministic: equal inputs give equal addresses. -/
theorem calcCreate2Address_correct (u : EthersUtils) (deployer salt initCode : String)
    (hfmt : ∀ s, strStartsWith (u.keccak256 s) "0x" = true ∧ (u.keccak256 s).data.length = 66) :
    calcCreate2Address u deployer salt initCode = create2AddressSpec u deployer salt initCode ∧
    (∀ d₂ s₂ i₂, d₂ = deployer → s₂ = salt → i₂ = initCode →
      calcCreate2Address u d₂ s₂ i₂ = calcCreate2Address u deployer salt initCode) := by
  constructor
  · simp only [calcCreate2Address, create2AddressSpec, solidityKeccak256]
    rw [solidityPack_create2]
    obtain ⟨hpre, hlen⟩ :=
      hfmt ("0xff" ++ strip0x deployer ++ strip0x salt ++ strip0x (u.keccak256 initCode))
    rw [sliceLast40_as_spec _ hpre hlen]
  · intro d₂ s₂ i₂ hd hs hi
    rw [hd, hs, hi]

/-- C1 witness: with a stub keccak producing a fixed 32-byte hex digest
and the identity checksum normalizer, the implementation and the spec
formula agree on a concrete input. -/
theorem calcCreate2Address_correct_witness :
    calcCreate2Address ⟨fun _ => "0xaaaaaaaaaaaaaaaaaaaaaaaaaaaaaaaaaaaaaaaaaaaaaaaaaaaaaaaaaaaaaaaa", fun s => some s⟩ "0x0102" "0x03" "0x04" =
      create2AddressSpec ⟨fun _ => "0xaaaaaaaaaaaaaaaaaaaaaaaaaaaaaaaaaaaaaaaaaaaaaaaaaaaaaaaaaaaaaaaa", fun s => some s⟩ "0x0102" "0x03" "0x04" :=
  (calcCreate2Address_correct ⟨fun _ => "0xaaaaaaaaaaaaaaaaaaaaaaaaaaaaaaaaaaaaaaaaaaaaaaaaaaaaaaaaaaaaaaaa", fun s => some s⟩ "0x0102" "0x03" "0x04"
    (fun _ =>
      (⟨by decide, by decide⟩ :
        strStartsWith "0xaaaaaaaaaaaaaaaaaaaaaaaaaaaaaaaaaaaaaaaaaaaaaaaaaaaaaaaaaaaaaaaa" "0x" = true ∧ ("0xaaaaaaaaaaaaaaaaaaaaaaaaaaaaaaaaaaaaaaaaaaaaaaaaaaaaaaaaaaaaaaaa" : String).data.length = 66))).1

end CPK
